import Mathlib

/-!
Verification development for `generate_catalog.py`, a catalog generator that
substitutes placeholder tokens in a single template slide, paginates records
two per page, duplicates the slide per page, and places images with an
aspect-ratio-preserving centered fit.

The Python source is shallowly embedded below: paragraph texts are `List Char`
(so that Python string operations such as `in` and `str.replace` can be
modelled faithfully and executably), slides are lists of shapes, pandas
records are finite structures of nullable scalar values, and fallible code
returns `Except`.
-/

set_option maxRecDepth 4000

deriving instance DecidableEq for Except

/-- Paragraph-run text, modelling a Python string as a list of characters. -/
abbrev Txt := List Char

/-- A paragraph is the ordered list of its runs' texts (styles are carried by
the run objects in python-pptx and are untouched by the text engine, so the
text-level model keeps only the texts). -/
abbrev Para := List Txt

/-- A replacement dictionary, in insertion order (Python 3.7+ dicts iterate in
insertion order; `dictSet` below preserves the position of an existing key,
as `dict.update` does). -/
abbrev Dict := List (Txt × Txt)

/-- Python `key in s` substring test. `[] ∈ s` is `true`, matching Python,
where the empty string is a substring of every string. -/
def containsSub (key : Txt) : Txt → Bool
  | [] => key.isEmpty
  | c :: rest => key.isPrefixOf (c :: rest) || containsSub key rest

/-- Worker for `replaceAll`, structurally recursive on a fuel that is always
at least the text's length (so the `0, s` clause is unreachable; see
`replaceAllAux_irrel`). -/
def replaceAllAux (key val : Txt) : Nat → Txt → Txt
  | _, [] => if key = [] then val else []
  | 0, s => s
  | fuel + 1, c :: rest =>
    if key = [] then val ++ c :: replaceAllAux key val fuel rest
    else if key.isPrefixOf (c :: rest) then
      val ++ replaceAllAux key val fuel (rest.drop (key.length - 1))
    else
      c :: replaceAllAux key val fuel rest

/-- Python `s.replace(key, val)`: replace every occurrence of `key` in `s` by
`val`, scanning left to right, non-overlapping (a match is skipped over whole,
and the emitted `val` is not rescanned for `key` in the same pass). The empty
pattern inserts `val` before every character and at the end, as in Python. -/
def replaceAll (key val s : Txt) : Txt :=
  replaceAllAux key val s.length s

/-- The replacement loop of `replace_text_in_paragraph` (lines 75-77):
`for key, value in replacements.items(): if key in new_text:
new_text = new_text.replace(key, value)`. -/
def applyReps (reps : Dict) (s : Txt) : Txt :=
  reps.foldl (fun acc kv => if containsSub kv.1 acc then replaceAll kv.1 kv.2 acc else acc) s

/-- `replace_text_in_paragraph` (lines 65-86): join all run texts, apply the
replacement dict, and if the text changed write the whole result into the
first run and clear the others. -/
def replace_text_in_paragraph (reps : Dict) (runs : Para) : Para :=
  let full := runs.flatten
  let newText := applyReps reps full
  if newText ≠ full then
    match runs with
    | [] => []
    | _ :: rest => newText :: rest.map (fun _ => ([] : Txt))
  else runs

/-- Shape geometry in EMU. python-pptx EMU coordinates of template shapes are
nonnegative machine integers; they are modelled as `Nat`, on which Python's
floor division `//` agrees with `Nat` division. -/
structure Geom where
  left : Nat
  top : Nat
  width : Nat
  height : Nat
deriving DecidableEq

/-- A slide shape: a text frame (with paragraphs of runs), a graphic frame
holding a table (rows of cells, each cell a list of paragraphs), or a
picture. `has_text_frame` is true exactly for `textFrame`; `has_table`
exactly for `table`. -/
inductive Shape where
  | textFrame (geom : Geom) (paras : List Para)
  | table (geom : Geom) (rows : List (List (List Para)))
  | picture (geom : Geom)
deriving DecidableEq

/-- `replace_text_in_shape` (lines 88-92): only shapes with a text frame are
rewritten. -/
def replace_text_in_shape (reps : Dict) : Shape → Shape
  | Shape.textFrame g paras => Shape.textFrame g (paras.map (replace_text_in_paragraph reps))
  | s => s

/-- `replace_text_in_table` (lines 95-100): recurse into every cell's
paragraphs. -/
def replace_text_in_table (reps : Dict) (rows : List (List (List Para))) :
    List (List (List Para)) :=
  rows.map (fun row => row.map (fun cell => cell.map (replace_text_in_paragraph reps)))

/-- The per-slide text pass of `generate_catalog` (lines 263-267):
`if shape.has_table: replace_text_in_table(...) else: replace_text_in_shape(...)`. -/
def substSlide (reps : Dict) (slide : List Shape) : List Shape :=
  slide.map (fun s => match s with
    | Shape.table g rows => Shape.table g (replace_text_in_table reps rows)
    | s => replace_text_in_shape reps s)

/-- All paragraphs of a shape that the text pass can touch. -/
def shapeParas : Shape → List Para
  | Shape.textFrame _ paras => paras
  | Shape.table _ rows => rows.flatten.flatten
  | Shape.picture _ => []

/-- All paragraphs of a slide. -/
def slideParas (slide : List Shape) : List Para :=
  (slide.map shapeParas).flatten

/-- A pandas cell value: `null` models NaN/None (`pd.isna` is true exactly on
`null`); other cells hold an integer or a string. -/
inductive PyVal where
  | null
  | num (n : Int)
  | str (s : String)
deriving DecidableEq

/-- The only exception the embedded code can raise: Python's `ValueError` from
`int()` on a non-numeric string, carrying the offending literal. The source
defines no error class of its own (in particular no `FormatError` and no
`ImagePlacementError`). -/
inductive PyErr where
  | valueError (badLiteral : String)
deriving DecidableEq

/-- Digits to number, for the model of Python `int(str)`. -/
def digitsToNat (ds : List Char) : Nat :=
  ds.foldl (fun n c => n * 10 + (c.toNat - 48)) 0

/-- Model of Python `int` applied to a string: optional sign followed by
decimal digits (surrounding whitespace stripped), otherwise a `ValueError`. -/
def parseIntPy (s : String) : Option Int :=
  match ((s.toList.dropWhile Char.isWhitespace).reverse.dropWhile Char.isWhitespace).reverse with
  | [] => Option.none
  | '-' :: ds =>
    if ds ≠ [] ∧ ds.all Char.isDigit then Option.some (-(digitsToNat ds : Int)) else Option.none
  | '+' :: ds =>
    if ds ≠ [] ∧ ds.all Char.isDigit then Option.some ((digitsToNat ds : Int)) else Option.none
  | ds => if ds.all Char.isDigit then Option.some ((digitsToNat ds : Int)) else Option.none

/-- Worker for `groupRight` over the reversed digit list: emit a comma before
every character whose index (counted from the right end of the number) is a
positive multiple of three. -/
def grpRev : Nat → List Char → List Char
  | _, [] => []
  | i, c :: rest =>
    if i % 3 == 0 && i != 0 then ',' :: c :: grpRev (i + 1) rest
    else c :: grpRev (i + 1) rest

/-- Insert a comma every three digits from the right, as Python's `{:,}`. -/
def groupRight (l : List Char) : List Char :=
  (grpRev 0 l.reverse).reverse

/-- Python `f"¥{int(val):,}"` for an already-converted integer. -/
def formatYen (n : Int) : Txt :=
  ("¥" ++ (if n < 0 then "-" else "") ++ String.mk (groupRight (toString n.natAbs).toList)).toList

/-- `format_price` (lines 47-51): `'－'` on NaN, else `f"¥{int(val):,}"`;
`int` on a non-numeric string raises `ValueError`. -/
def format_price (val : PyVal) : Except PyErr Txt :=
  match val with
  | PyVal.null => Except.ok "－".toList
  | PyVal.num n => Except.ok (formatYen n)
  | PyVal.str s =>
    match parseIntPy s with
    | Option.some n => Except.ok (formatYen n)
    | Option.none => Except.error (PyErr.valueError s)

/-- `safe_str` (lines 40-44): default on NaN, else `str(val)`. The default
argument (`'－'` in the source) is passed explicitly at each call site. -/
def safe_str (val : PyVal) (dflt : Txt) : Txt :=
  match val with
  | PyVal.null => dflt
  | PyVal.num n => (toString n).toList
  | PyVal.str s => s.toList

/-- Python `str(val)`, used for `f"{product_id}.{ext}"`. -/
def pyStr : PyVal → String
  | PyVal.null => "nan"
  | PyVal.num n => toString n
  | PyVal.str s => s

/-- One row of the 商品マスタ sheet, restricted to the columns the generator
reads. Any column may be NaN. -/
structure Product where
  «商品連番» : PyVal := PyVal.null
  «商品名» : PyVal := PyVal.null
  «容量» : PyVal := PyVal.null
  «単位» : PyVal := PyVal.null
  «発注ロット» : PyVal := PyVal.null
  «温度帯» : PyVal := PyVal.null
  «賞味期限» : PyVal := PyVal.null
  «国内定価» : PyVal := PyVal.null
  «参考上代» : PyVal := PyVal.null
  «商品特徴» : PyVal := PyVal.null
deriving DecidableEq

/-- The literal token `f'{{{{name_{num}}}}}'`, e.g. `{{商品名_1}}`. -/
def fTok (name : String) (num : Nat) : Txt :=
  ("\x7b\x7b" ++ name ++ "_" ++ toString num ++ "\x7d\x7d").toList

/-- The slot-independent token `'{{仕入先名}}'`. -/
def supTok : Txt := "\x7b\x7b仕入先名\x7d\x7d".toList

/-- Python `d[k] = v` on an insertion-ordered dict: overwrite in place if the
key exists, else append. -/
def dictSet (d : Dict) (k v : Txt) : Dict :=
  if d.any (fun p => p.1 == k) then d.map (fun p => if p.1 == k then (k, v) else p)
  else d ++ [(k, v)]

/-- Python `d.update(es)` on insertion-ordered dicts. -/
def dictUpdate (d : Dict) (es : Dict) : Dict :=
  es.foldl (fun acc p => dictSet acc p.1 p.2) d

/-- Python `d.get(k)`. -/
def dictGet (d : Dict) (k : Txt) : Option Txt :=
  (d.find? (fun p => p.1 == k)).map (fun p => p.2)

/-- `build_replacements` (lines 184-204): the per-slot token dictionary, in
the source's literal order. `msrp_str` is computed before the dict literal,
so a bad 参考上代 raises before a bad 国内定価 does. -/
def build_replacements (product : Product) (num : Nat) (supplier_name : Txt) :
    Except PyErr Dict := do
  let msrp_str : Txt ←
    if product.«参考上代» ≠ PyVal.null then do
      let f ← format_price product.«参考上代»
      pure (f ++ "（税込）".toList)
    else pure "－".toList
  let price ← format_price product.«国内定価»
  pure [
    (supTok, supplier_name),
    (fTok "商品名" num, safe_str product.«商品名» "－".toList),
    (fTok "容量" num, safe_str product.«容量» "－".toList),
    (fTok "単位" num, safe_str product.«単位» "－".toList),
    (fTok "MOQ" num, safe_str product.«発注ロット» "－".toList),
    (fTok "温度帯" num, safe_str product.«温度帯» "－".toList),
    (fTok "賞味期限" num, safe_str product.«賞味期限» "－".toList),
    (fTok "価格" num, price),
    (fTok "参考上代" num, msrp_str),
    (fTok "商品説明" num, safe_str product.«商品特徴» [])
  ]

/-- The field-class names blanked for an unfilled slot 2 (line 258). -/
def blankKeys : List String :=
  ["商品名", "容量", "単位", "MOQ", "温度帯", "賞味期限", "価格", "参考上代", "商品説明"]

/-- Lines 257-260: on a page with fewer than 2 products, map every slot-2
field token and the slot-2 image token to the empty string. -/
def blankSlot2 (d : Dict) : Dict :=
  dictSet (blankKeys.foldl (fun acc k => dictSet acc (fTok k 2) []) d) (fTok "画像" 2) []

/-- Lines 250-254: `replacements = {'{{仕入先名}}': supplier_name}`, then one
`update(build_replacements(product, idx+1, supplier_name))` per product. -/
def slotLoop (supplier : Txt) : Nat → Dict → List Product → Except PyErr Dict
  | _, d, [] => Except.ok d
  | num, d, p :: rest => do
    let reps ← build_replacements p num supplier
    slotLoop supplier (num + 1) (dictUpdate d reps) rest

/-- The replacement dictionary built for one page (lines 249-260). -/
def page_replacements (supplier : Txt) (page : List Product) : Except PyErr Dict := do
  let d ← slotLoop supplier 1 [(supTok, supplier)] page
  if page.length < 2 then pure (blankSlot2 d) else pure d

/-- Lines 140-147: aspect-ratio-preserving fit of an `iw × ih` image into a
`pw × ph` box. The float comparison `img_aspect > placeholder_aspect`
(iw/ih > pw/ph) is the integer comparison `pw * ih < iw * ph`; Python's
`int(...)` on the positive quotients is `Nat` floor division. Returns
`(new_width, new_height)`. -/
def aspectFit (iw ih pw ph : Nat) : Nat × Nat :=
  if pw * ih < iw * ph then (pw, pw * ih / iw) else (ph * iw / ih, ph)

/-- Lines 135-156: the geometry of the inserted picture — aspect fit plus the
centering offsets `left + (pw - new_w) // 2`, `top + (ph - new_h) // 2`. -/
def fitGeom (g : Geom) (iw ih : Nat) : Geom :=
  let wh := aspectFit iw ih g.width g.height
  { left := g.left + (g.width - wh.1) / 2
    top := g.top + (g.height - wh.2) / 2
    width := wh.1
    height := wh.2 }

/-- Concatenated text of a text frame (lines 130-133): join of all runs of all
paragraphs. -/
def concatShapeText (paras : List Para) : Txt :=
  (paras.map (fun p => p.flatten)).flatten

/-- The loop guard of `find_and_replace_image`: shape has a text frame and the
token occurs in its concatenated text. Tables and pictures never match. -/
def shapeMatches (tok : Txt) : Shape → Bool
  | Shape.textFrame _ paras => containsSub tok (concatShapeText paras)
  | _ => false

/-- The shape loop of `find_and_replace_image` (lines 127-158): at the first
text-frame shape containing the token, remove that shape and append a picture
with the fitted geometry at the end of the shape tree (`add_picture`), and
return `True`; otherwise return `False` with the slide unchanged. -/
def farLoop (tok : Txt) (iw ih : Nat) : List Shape → Bool × List Shape
  | [] => (false, [])
  | s :: rest =>
    match s with
    | Shape.textFrame g paras =>
      if containsSub tok (concatShapeText paras) then
        (true, rest ++ [Shape.picture (fitGeom g iw ih)])
      else
        let r := farLoop tok iw ih rest
        (r.1, s :: r.2)
    | _ =>
      let r := farLoop tok iw ih rest
      (r.1, s :: r.2)

/-- `find_and_replace_image` (lines 115-158). `fileExists` models
`os.path.exists(image_path)`; `iw`/`ih` the opened image's pixel size. -/
def find_and_replace_image (slide : List Shape) (tok : Txt) (fileExists : Bool)
    (iw ih : Nat) : Bool × List Shape :=
  if fileExists then farLoop tok iw ih slide else (false, slide)

/-- Lines 172-179 of `replace_image_placeholder_with_text`: in one paragraph,
if the token occurs in the joined text, write the replaced text into the first
run and clear the rest (no change-check here, unlike the text engine). -/
def replaceTokenPara (tok repl : Txt) (runs : Para) : Para :=
  let full := runs.flatten
  if containsSub tok full then
    match runs with
    | [] => []
    | _ :: rest => replaceAll tok repl full :: rest.map (fun _ => ([] : Txt))
  else runs

/-- The shape loop of `replace_image_placeholder_with_text` (lines 163-181):
at the first text-frame shape containing the token, rewrite every paragraph of
that shape that contains the token and return `True`. -/
def ripwtLoop (tok repl : Txt) : List Shape → Bool × List Shape
  | [] => (false, [])
  | s :: rest =>
    match s with
    | Shape.textFrame g paras =>
      if containsSub tok (concatShapeText paras) then
        (true, Shape.textFrame g (paras.map (replaceTokenPara tok repl)) :: rest)
      else
        let r := ripwtLoop tok repl rest
        (r.1, s :: r.2)
    | _ =>
      let r := ripwtLoop tok repl rest
      (r.1, s :: r.2)

/-- `replace_image_placeholder_with_text` (lines 161-181). -/
def replace_image_placeholder_with_text (slide : List Shape) (tok repl : Txt) :
    Bool × List Shape :=
  ripwtLoop tok repl slide

/-- Lines 275-280: probe `os.path.join(images_dir, f"{product_id}.{ext}")` for
`ext` in `jpg`, `png`, `webp`, in that order; the first existing candidate
wins. `fE` models `os.path.exists`. -/
def findImagePath (fE : String → Bool) (images_dir : String) (product_id : String) :
    Option String :=
  (["jpg", "png", "webp"].map (fun ext => images_dir ++ "/" ++ product_id ++ "." ++ ext)).find? fE

/-- Modelled from the spec: the image lookup the specification describes
("under a per-group-code subdirectory of the image root"), which is absent
from the source — the source joins the image root directly with the filename.
Stated only to compare with `findImagePath`. -/
def specImageLookup (fE : String → Bool) (image_root group_code product_id : String) :
    Option String :=
  (["jpg", "png", "webp"].map
    (fun ext => image_root ++ "/" ++ group_code ++ "/" ++ product_id ++ "." ++ ext)).find? fE

/-- The image pass of one page (lines 270-286): for each product of the page,
slot number `idx + 1`, probe for its image file; place it if found, else
substitute the literal `no image` text. `iS` models reading the image's pixel
size from the file. -/
def imgLoop (fE : String → Bool) (iS : String → Nat × Nat) (images_dir : String) :
    Nat → List Product → List Shape → List Shape
  | _, [], slide => slide
  | num, p :: rest, slide =>
    match findImagePath fE images_dir (pyStr p.«商品連番») with
    | Option.some path =>
      let sz := iS path
      imgLoop fE iS images_dir (num + 1) rest
        (find_and_replace_image slide (fTok "画像" num) (fE path) sz.1 sz.2).2
    | Option.none =>
      imgLoop fE iS images_dir (num + 1) rest
        (replace_image_placeholder_with_text slide (fTok "画像" num) "no image".toList).2

/-- One page's image pass, starting at slot 1. -/
def pageImagePass (fE : String → Bool) (iS : String → Nat × Nat) (images_dir : String)
    (page : List Product) (slide : List Shape) : List Shape :=
  imgLoop fE iS images_dir 1 page slide

/-- `range(0, len(products), PRODUCTS_PER_PAGE)` chunking with
`PRODUCTS_PER_PAGE = 2` (lines 29, 239-240): batches of two in original
order, the last possibly partial. -/
def chunkPages {α : Type} : List α → List (List α)
  | [] => []
  | [a] => [[a]]
  | a :: b :: rest => [a, b] :: chunkPages rest

/-- The page loop of `generate_catalog` (lines 239-286) over the
presentation's slide list. The first page mutates `prs.slides[0]` (the
template slide) in place; every later page appends `duplicate_slide(prs, 0)`
— a deep copy of the CURRENT `prs.slides[0]` — and mutates the copy. Each
iteration builds one replacement dictionary, runs the text pass, then the
image pass. -/
def pageLoop (supplier : Txt) (fE : String → Bool) (iS : String → Nat × Nat)
    (images_dir : String) : Bool → List (List Shape) → List (List Product) →
    Except PyErr (List (List Shape))
  | _, slides, [] => Except.ok slides
  | first, slides, page :: rest => do
    let src := slides.headD []
    let d ← page_replacements supplier page
    let processed := pageImagePass fE iS images_dir page (substSlide d src)
    if first then pageLoop supplier fE iS images_dir false (slides.set 0 processed) rest
    else pageLoop supplier fE iS images_dir false (slides ++ [processed]) rest

/-- `generate_catalog` (lines 223-297), for a template presentation holding
exactly one slide (the template contract), with data loading, file output and
logging external. Returns `none` for the zero-record early return
(`return None`, line 233). -/
def generate_catalog (supplier : Txt) (products : List Product) (template : List Shape)
    (fE : String → Bool) (iS : String → Nat × Nat) (images_dir : String) :
    Except PyErr (Option (List (List Shape))) :=
  if products.length = 0 then Except.ok Option.none
  else (pageLoop supplier fE iS images_dir true [template] (chunkPages products)).map Option.some

/-- Fuel irrelevance for `replaceAllAux`: any fuel at least the text's length
gives the same result. -/
theorem replaceAllAux_irrel (key val : Txt) :
    ∀ f₁ f₂ s, s.length ≤ f₁ → s.length ≤ f₂ →
      replaceAllAux key val f₁ s = replaceAllAux key val f₂ s := by
  intro f₁
  induction f₁ with
  | zero =>
    intro f₂ s h₁ _
    have hs : s = [] := List.eq_nil_of_length_eq_zero (Nat.le_zero.mp h₁)
    subst hs
    cases f₂ <;> rfl
  | succ g ih =>
    intro f₂ s h₁ h₂
    cases s with
    | nil => cases f₂ <;> rfl
    | cons c rest =>
      cases f₂ with
      | zero => simp at h₂
      | succ g₂ =>
        simp only [List.length_cons, Nat.succ_le_succ_iff] at h₁ h₂
        simp only [replaceAllAux]
        by_cases hk : key = []
        · subst hk
          rw [if_pos rfl, if_pos rfl, ih g₂ rest h₁ h₂]
        · rw [if_neg hk, if_neg hk]
          by_cases hp : key.isPrefixOf (c :: rest) = true
          · rw [if_pos hp, if_pos hp]
            have hd : (rest.drop (key.length - 1)).length ≤ rest.length := by
              simp [List.length_drop]
            rw [ih g₂ _ (Nat.le_trans hd h₁) (Nat.le_trans hd h₂)]
          · rw [if_neg hp, if_neg hp, ih g₂ rest h₁ h₂]

/-- `replaceAll` on the empty string. -/
theorem replaceAll_nil (key val : Txt) :
    replaceAll key val [] = if key = [] then val else [] := rfl

/-- One scanning step of `replaceAll`. -/
theorem replaceAll_cons (key val : Txt) (c : Char) (rest : Txt) :
    replaceAll key val (c :: rest) =
      if key = [] then val ++ c :: replaceAll key val rest
      else if key.isPrefixOf (c :: rest) then
        val ++ replaceAll key val ((c :: rest).drop key.length)
      else c :: replaceAll key val rest := by
  show replaceAllAux key val (rest.length + 1) (c :: rest) = _
  simp only [replaceAllAux]
  by_cases hk : key = []
  · subst hk
    rw [if_pos rfl, if_pos rfl]
    rfl
  · rw [if_neg hk, if_neg hk]
    by_cases hp : key.isPrefixOf (c :: rest) = true
    · rw [if_pos hp, if_pos hp]
      obtain ⟨m, hm⟩ : ∃ m, key.length = m + 1 := by
        cases hkl : key.length with
        | zero => exact absurd (List.eq_nil_of_length_eq_zero hkl) hk
        | succ m => exact ⟨m, rfl⟩
      have hdrop : (c :: rest).drop key.length = rest.drop m := by
        rw [hm]; rfl
      rw [hdrop, hm]
      simp only [Nat.add_sub_cancel]
      exact congrArg (val ++ ·) (replaceAllAux_irrel key val rest.length (rest.drop m).length _
        (by simp [List.length_drop]) (Nat.le_refl _))
    · rw [if_neg hp, if_neg hp]
      rfl

/-- A product row holding only a product name (all other columns NaN). -/
def namedProduct (s : String) : Product := { «商品名» := PyVal.str s }

/-- A one-shape template slide whose only text is the token `{{商品名_1}}`. -/
def tinyTemplate : List Shape :=
  [Shape.textFrame ⟨0, 0, 10, 10⟩ [[("\x7b\x7b商品名_1\x7d\x7d").toList]]]

/-- The `tinyTemplate` shape with its token resolved to the given name. -/
def tinyResolved (s : String) : Shape :=
  Shape.textFrame ⟨0, 0, 10, 10⟩ [[s.toList]]

/-- C1: the claim states that the shape tree cloned for every page index ≥ 1
is a byte-for-byte copy of the UNSUBSTITUTED template slide, substitution
happening only after cloning. The code violates this: page 0 substitutes
`prs.slides[0]` (the template slide) in place, and `duplicate_slide(prs, 0)`
for the next page then deep-copies that already-substituted slide. On three
records A, B, C (two pages) with no image files, both generated slides carry
page 0's resolved text "A"; substituting page 1's own replacement map into
the pristine template would instead give "C", which the run never produces.
The two conjuncts evaluate the embedded code at this failing input. -/
theorem generate_clone_pollution :
    generate_catalog "S".toList [namedProduct "A", namedProduct "B", namedProduct "C"]
        tinyTemplate (fun _ => false) (fun _ => (1, 1)) "images"
      = Except.ok (Option.some [[tinyResolved "A"], [tinyResolved "A"]]) ∧
    (page_replacements "S".toList [namedProduct "C"]).map (fun d => substSlide d tinyTemplate)
      = Except.ok [tinyResolved "C"] ∧
    tinyResolved "A" ≠ tinyResolved "C" := by
  refine ⟨by decide, by decide, by decide⟩

/-- C2 counterexample: with the map `{AA ↦ BB, BB ↦ X}` and input `AA`, the
value `BB` substituted for `AA` is itself re-scanned and rewritten by the
other key `BB` in the same pass, yielding `X`, not `BB` — so replacement
values are NOT protected from other keys of the same map. -/
theorem applyReps_rescans_value_cex :
    applyReps [("AA".toList, "BB".toList), ("BB".toList, "X".toList)] "AA".toList
      = "X".toList ∧ "X".toList ≠ "BB".toList := by
  refine ⟨by decide, by decide⟩

/-- C2 (amended): within one key's pass, replacement is leftmost-first and
non-overlapping and the emitted value is not re-scanned for that key (first
conjunct: if no occurrence of `key` starts before position `a.length`, the
occurrence there is consumed whole and scanning resumes after it); but keys
are processed sequentially in dict order, each pass scanning the FULL current
string — including text substituted by earlier keys (second conjunct). -/
theorem replace_leftmost_sequential (key val a b : Txt) (hk : key ≠ [])
    (hleft : ∀ i, i < a.length → key.isPrefixOf ((a ++ key ++ b).drop i) = false) :
    replaceAll key val (a ++ key ++ b) = a ++ val ++ replaceAll key val b ∧
    ∀ (k v s : Txt) (rest : Dict),
      applyReps ((k, v) :: rest) s =
        applyReps rest (if containsSub k s then replaceAll k v s else s) := by
  constructor
  · induction a with
    | nil =>
      simp only [List.nil_append]
      obtain ⟨kc, ktl, hkey⟩ : ∃ kc ktl, key = kc :: ktl := by
        cases key with
        | nil => exact absurd rfl hk
        | cons kc ktl => exact ⟨kc, ktl, rfl⟩
      rw [hkey] at hk ⊢
      show replaceAll (kc :: ktl) val (kc :: (ktl ++ b)) = _
      rw [replaceAll_cons, if_neg hk]
      have hpre : (kc :: ktl).isPrefixOf (kc :: (ktl ++ b)) = true :=
        List.isPrefixOf_iff_prefix.mpr ⟨b, rfl⟩
      rw [if_pos hpre]
      have : (kc :: (ktl ++ b)).drop (kc :: ktl).length = b := by
        show ((kc :: ktl) ++ b).drop (kc :: ktl).length = b
        exact List.drop_left _ _
      rw [this]
    | cons c a' ih =>
      have hstep : ((c :: a') ++ key ++ b) = c :: (a' ++ key ++ b) := by simp
      rw [hstep, replaceAll_cons, if_neg hk]
      have h0 : key.isPrefixOf (c :: (a' ++ key ++ b)) = false := by
        have := hleft 0 (by simp)
        simpa [hstep] using this
      rw [if_neg (by simp only [h0, Bool.false_eq_true, not_false_eq_true])]
      have hleft' : ∀ i, i < a'.length → key.isPrefixOf ((a' ++ key ++ b).drop i) = false := by
        intro i hi
        have := hleft (i + 1) (by simpa using Nat.succ_lt_succ hi)
        simpa [hstep] using this
      rw [ih hleft']
      simp
  · intro k v s rest
    rfl

/-- C2 witness: the leftmost occurrence of `AA` in `xAAy` is consumed whole
and scanning resumes after the substituted value. -/
theorem replace_leftmost_sequential_witness :
    replaceAll "AA".toList "B".toList "xAAy".toList
      = "x".toList ++ "B".toList ++ replaceAll "AA".toList "B".toList "y".toList :=
  (replace_leftmost_sequential "AA".toList "B".toList "x".toList "y".toList
    (by decide) (by decide)).1

/-- A map over a list on which the function is the identity is the identity. -/
theorem listMapId {α : Type} (l : List α) (f : α → α) (h : ∀ a ∈ l, f a = a) :
    l.map f = l := by
  induction l with
  | nil => rfl
  | cons a t ih => simp only [List.map_cons, h a (by simp), ih (fun x hx => h x (by simp [hx]))]

/-- If no key of the dict occurs in the text, the replacement loop returns the
text unchanged. -/
theorem applyReps_no_occurrence (reps : Dict) (s : Txt)
    (h : ∀ kv ∈ reps, containsSub kv.1 s = false) : applyReps reps s = s := by
  induction reps with
  | nil => rfl
  | cons kv rest ih =>
    show applyReps rest (if containsSub kv.1 s then replaceAll kv.1 kv.2 s else s) = s
    rw [if_neg (by simp [h kv (by simp)])]
    exact ih (fun x hx => h x (by simp [hx]))

/-- A paragraph none of whose keys occur in its joined text is untouched. -/
theorem replace_text_in_paragraph_id (reps : Dict) (runs : Para)
    (h : ∀ kv ∈ reps, containsSub kv.1 runs.flatten = false) :
    replace_text_in_paragraph reps runs = runs := by
  unfold replace_text_in_paragraph
  simp [applyReps_no_occurrence reps runs.flatten h]

/-- C9: idempotence on resolved content — if no key of the replacement dict
occurs in any paragraph of the slide (text frames and table cells alike), the
text pass changes no run's text: the slide is returned exactly as it was. -/
theorem subst_idempotent_resolved (reps : Dict) (slide : List Shape)
    (h : ∀ p ∈ slideParas slide, ∀ kv ∈ reps, containsSub kv.1 p.flatten = false) :
    substSlide reps slide = slide := by
  unfold substSlide
  apply listMapId
  intro s hs
  have hpara : ∀ p ∈ shapeParas s, ∀ kv ∈ reps, containsSub kv.1 p.flatten = false := by
    intro p hp kv hkv
    exact h p (List.mem_flatten.mpr ⟨shapeParas s, List.mem_map_of_mem _ hs, hp⟩) kv hkv
  cases s with
  | textFrame g paras =>
    show Shape.textFrame g (paras.map (replace_text_in_paragraph reps)) = Shape.textFrame g paras
    congr 1
    apply listMapId
    intro p hp
    exact replace_text_in_paragraph_id reps p (hpara p hp)
  | table g rows =>
    show Shape.table g (rows.map (fun row => row.map (fun cell =>
      cell.map (replace_text_in_paragraph reps)))) = Shape.table g rows
    congr 1
    apply listMapId
    intro row hrow
    apply listMapId
    intro cell hcell
    apply listMapId
    intro p hp
    refine replace_text_in_paragraph_id reps p (hpara p ?_)
    show p ∈ rows.flatten.flatten
    exact List.mem_flatten.mpr ⟨cell, List.mem_flatten.mpr ⟨row, hrow, hcell⟩, hp⟩
  | picture g => rfl

/-- C9 witness: a slide with a text frame and a table, no occurrence of the
key `AA` anywhere, is returned unchanged. -/
theorem subst_idempotent_resolved_witness :
    substSlide [("AA".toList, "B".toList)]
        [Shape.textFrame ⟨0, 0, 1, 1⟩ [[("hi".toList), ("there".toList)]],
         Shape.table ⟨0, 0, 2, 2⟩ [[[[("z".toList)]]]]]
      = [Shape.textFrame ⟨0, 0, 1, 1⟩ [[("hi".toList), ("there".toList)]],
         Shape.table ⟨0, 0, 2, 2⟩ [[[[("z".toList)]]]]] :=
  subst_idempotent_resolved _ _ (by decide)

/-- If no shape of the slide matches, the search loop of
`find_and_replace_image` returns `False` with every shape in place. -/
theorem farLoop_no_match (tok : Txt) (iw ih : Nat) (slide : List Shape)
    (h : ∀ s ∈ slide, shapeMatches tok s = false) :
    farLoop tok iw ih slide = (false, slide) := by
  induction slide with
  | nil => rfl
  | cons s rest ih' =>
    have htail : ∀ x ∈ rest, shapeMatches tok x = false :=
      fun x hx => h x (by simp [hx])
    cases s with
    | textFrame g paras =>
      have hm : containsSub tok (concatShapeText paras) = false := by
        have := h _ (List.mem_cons_self _ rest)
        simpa [shapeMatches] using this
      simp only [farLoop, hm, Bool.false_eq_true, if_false, ih' htail]
    | table g rows =>
      simp only [farLoop, ih' htail]
    | picture g =>
      simp only [farLoop, ih' htail]

/-- The search loop at the first matching shape: that shape is removed, a
picture with the fitted geometry is appended at the end, every other shape is
kept in order, and `True` is returned. -/
theorem farLoop_first (tok : Txt) (iw ih : Nat) (pre : List Shape) (g : Geom)
    (paras : List Para) (post : List Shape)
    (hpre : ∀ s ∈ pre, shapeMatches tok s = false)
    (hmatch : containsSub tok (concatShapeText paras) = true) :
    farLoop tok iw ih (pre ++ Shape.textFrame g paras :: post)
      = (true, pre ++ post ++ [Shape.picture (fitGeom g iw ih)]) := by
  induction pre with
  | nil =>
    simp only [List.nil_append, farLoop, hmatch, if_true]
  | cons s pre' ih' =>
    have htail : ∀ x ∈ pre', shapeMatches tok x = false :=
      fun x hx => hpre x (by simp [hx])
    have hrec := ih' htail
    cases s with
    | textFrame g' paras' =>
      have hm : containsSub tok (concatShapeText paras') = false := by
        have := hpre _ (List.mem_cons_self _ pre')
        simpa [shapeMatches] using this
      simp only [List.cons_append, farLoop, hm, Bool.false_eq_true, if_false, hrec]
      simp [hrec]
    | table g' rows' =>
      simp only [List.cons_append, farLoop, hrec]
      simp [hrec]
    | picture g' =>
      simp only [List.cons_append, farLoop, hrec]
      simp [hrec]

/-- If the search loop reports success, the slide decomposes around a first
matching text frame, and the result is exactly that slide with the match
removed and one fitted picture appended. -/
theorem farLoop_true_decomp (tok : Txt) (iw ih : Nat) (slide : List Shape) :
    (farLoop tok iw ih slide).1 = true →
    ∃ pre g paras post, slide = pre ++ Shape.textFrame g paras :: post ∧
      (∀ s ∈ pre, shapeMatches tok s = false) ∧
      containsSub tok (concatShapeText paras) = true ∧
      (farLoop tok iw ih slide).2 = pre ++ post ++ [Shape.picture (fitGeom g iw ih)] := by
  induction slide with
  | nil => intro hfalse; simp [farLoop] at hfalse
  | cons s rest ih' =>
    intro htrue
    cases s with
    | textFrame g paras =>
      by_cases hc : containsSub tok (concatShapeText paras) = true
      · exact ⟨[], g, paras, rest, rfl, by simp, hc, by simp [farLoop, hc]⟩
      · have hc' : containsSub tok (concatShapeText paras) = false := by
          simpa using hc
        simp only [farLoop, hc', Bool.false_eq_true, if_false] at htrue ⊢
        obtain ⟨pre, g', paras', post, hdec, hpre, hm, hsnd⟩ := ih' htrue
        refine ⟨Shape.textFrame g paras :: pre, g', paras', post, by simp [hdec], ?_, hm, ?_⟩
        · intro x hx
          rcases List.mem_cons.mp hx with hx | hx
          · subst hx; simpa [shapeMatches] using hc'
          · exact hpre x hx
        · simp [hsnd]
    | table g rows =>
      simp only [farLoop] at htrue ⊢
      obtain ⟨pre, g', paras', post, hdec, hpre, hm, hsnd⟩ := ih' htrue
      refine ⟨Shape.table g rows :: pre, g', paras', post, by simp [hdec], ?_, hm, by simp [hsnd]⟩
      intro x hx
      rcases List.mem_cons.mp hx with hx | hx
      · subst hx; rfl
      · exact hpre x hx
    | picture g =>
      simp only [farLoop] at htrue ⊢
      obtain ⟨pre, g', paras', post, hdec, hpre, hm, hsnd⟩ := ih' htrue
      refine ⟨Shape.picture g :: pre, g', paras', post, by simp [hdec], ?_, hm, by simp [hsnd]⟩
      intro x hx
      rcases List.mem_cons.mp hx with hx | hx
      · subst hx; rfl
      · exact hpre x hx

/-- C10: with an existing image file, `find_and_replace_image` mutates at most
one shape. If no text-frame shape's concatenated text contains the token it
returns `False` with every shape unchanged; if it returns `True`, the slide
decomposes around the first matching text-frame shape, which is removed,
exactly one picture (at the aspect-fitted geometry) is inserted, and every
other shape is unchanged and in order. -/
theorem find_image_frame_effect (slide : List Shape) (tok : Txt) (fe : Bool)
    (iw ih : Nat) (hfe : fe = true) :
    ((∀ s ∈ slide, shapeMatches tok s = false) →
      find_and_replace_image slide tok fe iw ih = (false, slide)) ∧
    ((find_and_replace_image slide tok fe iw ih).1 = true →
      ∃ pre g paras post, slide = pre ++ Shape.textFrame g paras :: post ∧
        (∀ s ∈ pre, shapeMatches tok s = false) ∧
        shapeMatches tok (Shape.textFrame g paras) = true ∧
        (find_and_replace_image slide tok fe iw ih).2
          = pre ++ post ++ [Shape.picture (fitGeom g iw ih)]) := by
  subst hfe
  have hred : find_and_replace_image slide tok true iw ih = farLoop tok iw ih slide := rfl
  rw [hred]
  constructor
  · exact farLoop_no_match tok iw ih slide
  · intro htrue
    obtain ⟨pre, g, paras, post, hdec, hpre, hm, hsnd⟩ := farLoop_true_decomp tok iw ih slide htrue
    exact ⟨pre, g, paras, post, hdec, hpre, by simpa [shapeMatches] using hm, hsnd⟩

/-- C10 witness: on a slide holding only a picture shape (which can never
match), the call returns `False` and the slide is unchanged. -/
theorem find_image_frame_effect_witness :
    find_and_replace_image [Shape.picture ⟨1, 1, 1, 1⟩] "T".toList true 2 1
      = (false, [Shape.picture ⟨1, 1, 1, 1⟩]) :=
  (find_image_frame_effect [Shape.picture ⟨1, 1, 1, 1⟩] "T".toList true 2 1 rfl).1 (by decide)

/-- C3 counterexample: a slide whose only occurrence of the token sits inside
a table cell, probed with an existing image file. The claim demands a loud
`ImagePlacementError`; the code instead returns `False` with the slide
untouched — a silent skip (the source defines no `ImagePlacementError` at
all, so no call can raise one). -/
theorem table_token_silent_skip_cex :
    find_and_replace_image [Shape.table ⟨0, 0, 5, 5⟩ [[[[("T".toList)]]]]] "T".toList true 3 2
      = (false, [Shape.table ⟨0, 0, 5, 5⟩ [[[[("T".toList)]]]]]) := by
  decide

/-- C3 (amended): whenever the token occurs in no text-frame shape of the
slide — in particular when it occurs only inside table cells, which the shape
loop of `find_and_replace_image` skips because a table has no text frame —
the call with an existing image file silently returns `False` and leaves the
slide unchanged; no error of any kind is raised. -/
theorem no_textframe_match_silent (slide : List Shape) (tok : Txt) (iw ih : Nat)
    (h : ∀ s ∈ slide, shapeMatches tok s = false) :
    find_and_replace_image slide tok true iw ih = (false, slide) :=
  farLoop_no_match tok iw ih slide h

/-- C3 witness: the silent-skip behavior on a concrete slide holding the
token only inside a table cell next to an unrelated picture shape. -/
theorem no_textframe_match_silent_witness :
    find_and_replace_image
        [Shape.table ⟨0, 0, 5, 5⟩ [[[[("U".toList)]]]], Shape.picture ⟨2, 2, 2, 2⟩]
        "U".toList true 4 3
      = (false, [Shape.table ⟨0, 0, 5, 5⟩ [[[[("U".toList)]]]], Shape.picture ⟨2, 2, 2, 2⟩]) :=
  no_textframe_match_silent _ _ 4 3 (by decide)

/-- Floor characterization: `a < (a / b + 1) * b` for positive `b`. -/
theorem natLtDivSuccMul (a b : Nat) (hb : 0 < b) : a < (a / b + 1) * b := by
  have h1 := Nat.div_add_mod a b
  have h2 := Nat.mod_lt a hb
  nlinarith [h1, h2]

/-- C8: the aspect-fit geometry of `find_and_replace_image`. With image size
`iw × ih` (aspect `a = iw/ih`) and placeholder box `pw × ph` at `(pl, pt)`:
if `a > pw/ph` (as integers, `pw * ih < iw * ph`) the fitted width is `pw` and
the fitted height is the floor of `pw / a = pw * ih / iw` (bracketed by the
two floor inequalities) and still fits in the box; symmetrically for
`a ≤ pw/ph`. The picture is centered: its offsets inside the box are the
floored half-slacks `(pw - w') / 2` and `(ph - h') / 2`, so twice each offset
is within one unit of the slack. -/
theorem aspect_fit_centered (iw ih pw ph pl pt : Nat)
    (hiw : 0 < iw) (hih : 0 < ih) (hpw : 0 < pw) (hph : 0 < ph) :
    (pw * ih < iw * ph →
      (fitGeom ⟨pl, pt, pw, ph⟩ iw ih).width = pw ∧
      (fitGeom ⟨pl, pt, pw, ph⟩ iw ih).height = pw * ih / iw ∧
      (fitGeom ⟨pl, pt, pw, ph⟩ iw ih).height * iw ≤ pw * ih ∧
      pw * ih < ((fitGeom ⟨pl, pt, pw, ph⟩ iw ih).height + 1) * iw ∧
      (fitGeom ⟨pl, pt, pw, ph⟩ iw ih).height ≤ ph) ∧
    (¬ pw * ih < iw * ph →
      (fitGeom ⟨pl, pt, pw, ph⟩ iw ih).height = ph ∧
      (fitGeom ⟨pl, pt, pw, ph⟩ iw ih).width = ph * iw / ih ∧
      (fitGeom ⟨pl, pt, pw, ph⟩ iw ih).width * ih ≤ ph * iw ∧
      ph * iw < ((fitGeom ⟨pl, pt, pw, ph⟩ iw ih).width + 1) * ih ∧
      (fitGeom ⟨pl, pt, pw, ph⟩ iw ih).width ≤ pw) ∧
    (fitGeom ⟨pl, pt, pw, ph⟩ iw ih).left
        = pl + (pw - (fitGeom ⟨pl, pt, pw, ph⟩ iw ih).width) / 2 ∧
    (fitGeom ⟨pl, pt, pw, ph⟩ iw ih).top
        = pt + (ph - (fitGeom ⟨pl, pt, pw, ph⟩ iw ih).height) / 2 ∧
    2 * ((fitGeom ⟨pl, pt, pw, ph⟩ iw ih).left - pl)
        ≤ pw - (fitGeom ⟨pl, pt, pw, ph⟩ iw ih).width ∧
    pw - (fitGeom ⟨pl, pt, pw, ph⟩ iw ih).width
        < 2 * ((fitGeom ⟨pl, pt, pw, ph⟩ iw ih).left - pl) + 2 ∧
    2 * ((fitGeom ⟨pl, pt, pw, ph⟩ iw ih).top - pt)
        ≤ ph - (fitGeom ⟨pl, pt, pw, ph⟩ iw ih).height ∧
    ph - (fitGeom ⟨pl, pt, pw, ph⟩ iw ih).height
        < 2 * ((fitGeom ⟨pl, pt, pw, ph⟩ iw ih).top - pt) + 2 := by
  have hcenter : ∀ (box off : Nat), 2 * ((box + off / 2) - box) ≤ off ∧
      off < 2 * ((box + off / 2) - box) + 2 := by
    intro box off
    rw [Nat.add_sub_cancel_left]
    constructor
    · rw [Nat.mul_comm]
      exact Nat.div_mul_le_self off 2
    · have := natLtDivSuccMul off 2 (by omega)
      omega
  by_cases hcmp : pw * ih < iw * ph
  · have hfit : aspectFit iw ih pw ph = (pw, pw * ih / iw) := by
      unfold aspectFit
      rw [if_pos hcmp]
    have hg : fitGeom ⟨pl, pt, pw, ph⟩ iw ih =
        ⟨pl + (pw - pw) / 2, pt + (ph - pw * ih / iw) / 2, pw, pw * ih / iw⟩ := by
      unfold fitGeom
      rw [hfit]
    rw [hg]
    have hle : pw * ih / iw ≤ ph := by
      have : pw * ih / iw < ph :=
        (Nat.div_lt_iff_lt_mul hiw).mpr (by rw [Nat.mul_comm ph iw]; exact hcmp)
      omega
    refine ⟨fun _ => ⟨rfl, rfl, Nat.div_mul_le_self _ _, natLtDivSuccMul _ _ hiw, hle⟩,
      fun hc => absurd hcmp hc, rfl, rfl, (hcenter pl (pw - pw)).1, (hcenter pl (pw - pw)).2,
      (hcenter pt (ph - pw * ih / iw)).1, (hcenter pt (ph - pw * ih / iw)).2⟩
  · have hfit : aspectFit iw ih pw ph = (ph * iw / ih, ph) := by
      unfold aspectFit
      rw [if_neg hcmp]
    have hg : fitGeom ⟨pl, pt, pw, ph⟩ iw ih =
        ⟨pl + (pw - ph * iw / ih) / 2, pt + (ph - ph) / 2, ph * iw / ih, ph⟩ := by
      unfold fitGeom
      rw [hfit]
    rw [hg]
    have hle : ph * iw / ih ≤ pw := by
      have h1 : ph * iw ≤ pw * ih := by
        have := Nat.not_lt.mp hcmp
        nlinarith [this]
      calc ph * iw / ih ≤ pw * ih / ih := Nat.div_le_div_right h1
        _ = pw := Nat.mul_div_cancel pw hih
    refine ⟨fun hc => absurd hc hcmp,
      fun _ => ⟨rfl, rfl, Nat.div_mul_le_self _ _, natLtDivSuccMul _ _ hih, hle⟩, rfl, rfl,
      (hcenter pl (pw - ph * iw / ih)).1, (hcenter pl (pw - ph * iw / ih)).2,
      (hcenter pt (ph - ph)).1, (hcenter pt (ph - ph)).2⟩

/-- C8 witness: a 4:3 image in a 100 × 100 box at (5, 7) fits by width to
100 × 75 and sits at offsets (0, 12). -/
theorem aspect_fit_centered_witness :
    fitGeom ⟨5, 7, 100, 100⟩ 4 3 = ⟨5, 19, 100, 75⟩ ∧ (100 : Nat) * 3 < 4 * 100 ∧
      (fitGeom ⟨5, 7, 100, 100⟩ 4 3).width = 100 ∧
      (fitGeom ⟨5, 7, 100, 100⟩ 4 3).height ≤ 100 := by
  have h := aspect_fit_centered 4 3 100 100 5 7 (by decide) (by decide) (by decide) (by decide)
  have h1 := h.1 (by decide)
  exact ⟨by decide, by decide, h1.1, h1.2.2.2.2⟩

/-- A product whose price column holds the non-numeric text `N/A`. -/
def prodBadPrice : Product :=
  { «国内定価» := PyVal.str "N/A", «商品連番» := PyVal.str "A_01_HAK_001" }

/-- A product whose recommended-price column holds the same bad text. -/
def prodBadMsrp : Product :=
  { «参考上代» := PyVal.str "N/A", «商品連番» := PyVal.str "A_01_HAK_002" }

/-- C4 counterexample: two records with the bad value `N/A` in two DIFFERENT
price fields and two DIFFERENT record identifiers produce literally identical
errors — a bare `ValueError` carrying only the offending literal. The claim's
`FormatError` naming the field and the record identifier does not exist: the
raised error cannot name either, since it does not depend on them. -/
theorem price_error_anonymous_cex :
    build_replacements prodBadPrice 1 "S".toList = Except.error (PyErr.valueError "N/A") ∧
    build_replacements prodBadMsrp 1 "S".toList = Except.error (PyErr.valueError "N/A") ∧
    prodBadPrice.«商品連番» ≠ prodBadMsrp.«商品連番» := by
  refine ⟨by decide, by decide, by decide⟩

/-- C4 (amended): a non-numeric, non-null price does make `build_replacements`
fail — there is no silent coercion — but with Python's plain `ValueError`
from `int()`, carrying only the bad literal; and the error is identical for
every record identifier, so it names neither the field nor the record. -/
theorem build_replacements_price_valueerror (product : Product) (num : Nat) (supplier : Txt)
    (s : String) (hmsrp : product.«参考上代» = PyVal.null)
    (hprice : product.«国内定価» = PyVal.str s) (hbad : parseIntPy s = Option.none) :
    build_replacements product num supplier = Except.error (PyErr.valueError s) ∧
    ∀ pid : PyVal, build_replacements { product with «商品連番» := pid } num supplier
      = Except.error (PyErr.valueError s) := by
  constructor
  · simp [build_replacements, hmsrp, hprice, format_price, hbad]
  · intro pid
    simp [build_replacements, hmsrp, hprice, format_price, hbad]

/-- C4 witness: the amended behavior at the concrete record `prodBadPrice`. -/
theorem build_replacements_price_valueerror_witness :
    build_replacements prodBadPrice 1 "S".toList = Except.error (PyErr.valueError "N/A") :=
  (build_replacements_price_valueerror prodBadPrice 1 "S".toList "N/A" rfl rfl (by decide)).1

/-- C5 counterexample: the image file exists exactly at the per-group-code
path `images/HAK/P1.jpg` that the claim describes; the code probes
`images/P1.jpg`, `images/P1.png`, `images/P1.webp` (no group subdirectory) and
finds nothing, while the lookup the claim describes finds the file. -/
theorem image_lookup_no_subdir_cex :
    findImagePath (fun s => s == "images/HAK/P1.jpg") "images" "P1" = Option.none ∧
    specImageLookup (fun s => s == "images/HAK/P1.jpg") "images" "HAK" "P1"
      = Option.some "images/HAK/P1.jpg" := by
  refine ⟨by decide, by decide⟩

/-- C5 (amended): for record identifier `pid` the image is probed at
`images_dir/pid.jpg`, then `images_dir/pid.png`, then `images_dir/pid.webp` —
directly under the image root passed to the run, with no per-group-code
subdirectory — and the first existing candidate wins. -/
theorem findImagePath_priority (fE : String → Bool) (dir pid : String) :
    (fE (dir ++ "/" ++ pid ++ "." ++ "jpg") = true →
      findImagePath fE dir pid = Option.some (dir ++ "/" ++ pid ++ "." ++ "jpg")) ∧
    (fE (dir ++ "/" ++ pid ++ "." ++ "jpg") = false →
      fE (dir ++ "/" ++ pid ++ "." ++ "png") = true →
      findImagePath fE dir pid = Option.some (dir ++ "/" ++ pid ++ "." ++ "png")) ∧
    (fE (dir ++ "/" ++ pid ++ "." ++ "jpg") = false →
      fE (dir ++ "/" ++ pid ++ "." ++ "png") = false →
      fE (dir ++ "/" ++ pid ++ "." ++ "webp") = true →
      findImagePath fE dir pid = Option.some (dir ++ "/" ++ pid ++ "." ++ "webp")) ∧
    (fE (dir ++ "/" ++ pid ++ "." ++ "jpg") = false →
      fE (dir ++ "/" ++ pid ++ "." ++ "png") = false →
      fE (dir ++ "/" ++ pid ++ "." ++ "webp") = false →
      findImagePath fE dir pid = Option.none) := by
  refine ⟨fun h1 => ?_, fun h1 h2 => ?_, fun h1 h2 h3 => ?_, fun h1 h2 h3 => ?_⟩
  · simp [findImagePath, List.find?, h1]
  · simp [findImagePath, List.find?, h1, h2]
  · simp [findImagePath, List.find?, h1, h2, h3]
  · simp [findImagePath, List.find?, h1, h2, h3]

/-- C5 witness: with only `images/P1.png` existing, the `png` candidate is
chosen (after the missing `jpg`). -/
theorem findImagePath_priority_witness :
    findImagePath (fun s => s == "images/P1.png") "images" "P1"
      = Option.some ("images" ++ "/" ++ "P1" ++ "." ++ "png") :=
  (findImagePath_priority (fun s => s == "images/P1.png") "images" "P1").2.1
    (by decide) (by decide)

/-- Scanning a dict whose matching entries were overwritten to `(k, v)` finds
`(k, v)` as soon as some entry matched. -/
theorem find_map_set_self (d : Dict) (k v : Txt)
    (hany : d.any (fun p => p.1 == k) = true) :
    (d.map (fun p => if p.1 == k then (k, v) else p)).find? (fun p => p.1 == k)
      = Option.some (k, v) := by
  induction d with
  | nil => simp at hany
  | cons p t ih =>
    by_cases hp : (p.1 == k) = true
    · simp only [List.map_cons, if_pos hp]
      exact List.find?_cons_of_pos _ (by simp)
    · have htail : t.any (fun q => q.1 == k) = true := by
        simp only [List.any_cons, hp, Bool.false_or] at hany
        exact hany
      simp only [List.map_cons, if_neg hp]
      rw [List.find?_cons_of_neg _ (by simp [hp]), ih htail]

/-- Overwriting entries at key `k` does not affect scanning for `k' ≠ k`. -/
theorem find_map_set_other (d : Dict) (k v k' : Txt) (hbk : (k == k') = false) :
    (d.map (fun p => if p.1 == k then (k, v) else p)).find? (fun p => p.1 == k')
      = d.find? (fun p => p.1 == k') := by
  induction d with
  | nil => rfl
  | cons p t ih =>
    by_cases hp : (p.1 == k) = true
    · have hpk : p.1 = k := by simpa using hp
      simp only [List.map_cons, if_pos hp]
      rw [List.find?_cons_of_neg _ (by simp [hbk]),
        List.find?_cons_of_neg _ (by simp [hpk, hbk]), ih]
    · simp only [List.map_cons, if_neg hp]
      by_cases hq : (p.1 == k') = true
      · rw [List.find?_cons_of_pos _ (by simpa using hq),
          List.find?_cons_of_pos _ (by simpa using hq)]
      · rw [List.find?_cons_of_neg _ (by simpa using hq),
          List.find?_cons_of_neg _ (by simpa using hq), ih]

/-- `dictSet` then lookup at the same key yields the new value. -/
theorem dictGet_dictSet_self (d : Dict) (k v : Txt) :
    dictGet (dictSet d k v) k = Option.some v := by
  unfold dictSet dictGet
  by_cases hany : d.any (fun p => p.1 == k) = true
  · rw [if_pos hany, find_map_set_self d k v hany]
    rfl
  · rw [if_neg hany, List.find?_append]
    have hnone : d.find? (fun p => p.1 == k) = Option.none := by
      rw [List.find?_eq_none]
      intro x hx hcx
      exact hany (List.any_eq_true.mpr ⟨x, hx, hcx⟩)
    rw [hnone]
    simp [List.find?]

/-- `dictSet` at one key does not disturb lookup at a different key. -/
theorem dictGet_dictSet_ne (d : Dict) (k v k' : Txt) (h : k' ≠ k) :
    dictGet (dictSet d k v) k' = dictGet d k' := by
  have hbk : (k == k') = false := by
    simp only [beq_eq_false_iff_ne, ne_eq]
    exact fun hc => h hc.symm
  unfold dictSet dictGet
  by_cases hany : d.any (fun p => p.1 == k) = true
  · rw [if_pos hany, find_map_set_other d k v k' hbk]
  · rw [if_neg hany, List.find?_append]
    have hsingle : ([(k, v)] : Dict).find? (fun p => p.1 == k') = Option.none := by
      simp [List.find?, hbk]
    rw [hsingle]
    cases d.find? (fun p => p.1 == k') <;> rfl

/-- Folding `dictSet` with the same value over a key list: lookup at a key not
in the list is unchanged. -/
theorem dictGet_setAll_not_mem (ks : List Txt) (D : Dict) (v k' : Txt) (h : k' ∉ ks) :
    dictGet (ks.foldl (fun acc t => dictSet acc t v) D) k' = dictGet D k' := by
  induction ks generalizing D with
  | nil => rfl
  | cons t ks' ih =>
    have h1 : k' ≠ t := fun hc => h (by simp [hc])
    have h2 : k' ∉ ks' := fun hc => h (by simp [hc])
    show dictGet (ks'.foldl (fun acc t => dictSet acc t v) (dictSet D t v)) k' = dictGet D k'
    rw [ih (dictSet D t v) h2, dictGet_dictSet_ne D t v k' h1]

/-- Folding `dictSet` with the same value over a key list: every key of the
list maps to that value afterwards. -/
theorem dictGet_setAll_mem (ks : List Txt) (D : Dict) (v k : Txt) (h : k ∈ ks) :
    dictGet (ks.foldl (fun acc t => dictSet acc t v) D) k = Option.some v := by
  induction ks generalizing D with
  | nil => simp at h
  | cons t ks' ih =>
    show dictGet (ks'.foldl (fun acc t => dictSet acc t v) (dictSet D t v)) k = Option.some v
    by_cases hk : k ∈ ks'
    · exact ih (dictSet D t v) hk
    · have hkt : k = t := by
        rcases List.mem_cons.mp h with hh | hh
        · exact hh
        · exact absurd hh hk
      subst hkt
      rw [dictGet_setAll_not_mem ks' (dictSet D k v) v k hk, dictGet_dictSet_self]

/-- `blankSlot2` is one fold of `dictSet` with value `''` over the nine slot-2
field tokens followed by the slot-2 image token. -/
theorem blankSlot2_setAll (D : Dict) :
    blankSlot2 D = ((blankKeys.map (fun k => fTok k 2)) ++ [fTok "画像" 2]).foldl
      (fun acc t => dictSet acc t []) D := by
  unfold blankSlot2
  rw [List.foldl_append, List.foldl_map]
  simp only [List.foldl_cons, List.foldl_nil]

/-- C6 (amended): on a page holding a single record (fewer than K = 2), the
replacement dictionary sends every slot-2 field-class token to the empty
string AND the slot-2 image token to the empty string as well — resolution of
the unfilled slot's image token happens in the text pass via this mapping,
not via the `no image` fallback (which only the per-record image loop emits,
and that loop never visits the unfilled slot). -/
theorem page_replacements_blanks (supplier : Txt) (p : Product) (d : Dict)
    (h : page_replacements supplier [p] = Except.ok d) :
    (∀ name ∈ blankKeys, dictGet d (fTok name 2) = Option.some []) ∧
    dictGet d (fTok "画像" 2) = Option.some [] := by
  cases hbr : build_replacements p 1 supplier with
  | error e =>
    have hslot : slotLoop supplier 1 [(supTok, supplier)] [p] = Except.error e := by
      show (build_replacements p 1 supplier >>= fun reps =>
        slotLoop supplier (1 + 1) (dictUpdate [(supTok, supplier)] reps) []) = Except.error e
      rw [hbr]
      rfl
    have hpage : page_replacements supplier [p] = Except.error e := by
      show (slotLoop supplier 1 [(supTok, supplier)] [p] >>= fun d0 =>
        if ([p] : List Product).length < 2 then pure (blankSlot2 d0) else pure d0)
          = Except.error e
      rw [hslot]
      rfl
    rw [hpage] at h
    exact Except.noConfusion h
  | ok reps =>
    have hslot : slotLoop supplier 1 [(supTok, supplier)] [p]
        = Except.ok (dictUpdate [(supTok, supplier)] reps) := by
      show (build_replacements p 1 supplier >>= fun reps =>
        slotLoop supplier (1 + 1) (dictUpdate [(supTok, supplier)] reps) []) = _
      rw [hbr]
      rfl
    have hpage : page_replacements supplier [p]
        = Except.ok (blankSlot2 (dictUpdate [(supTok, supplier)] reps)) := by
      show (slotLoop supplier 1 [(supTok, supplier)] [p] >>= fun d0 =>
        if ([p] : List Product).length < 2 then pure (blankSlot2 d0) else pure d0) = _
      rw [hslot]
      rfl
    have hd : d = blankSlot2 (dictUpdate [(supTok, supplier)] reps) :=
      (Except.ok.inj (hpage.symm.trans h)).symm
    subst hd
    rw [blankSlot2_setAll]
    constructor
    · intro name hname
      refine dictGet_setAll_mem _ _ _ _ ?_
      exact List.mem_append_left _ (List.mem_map_of_mem _ hname)
    · refine dictGet_setAll_mem _ _ _ _ ?_
      exact List.mem_append_right _ (by simp)

/-- The concrete page dictionary built for a one-record page of an all-NaN
record with supplier name `S`. -/
def c6dict : Dict :=
  match page_replacements "S".toList [({} : Product)] with
  | Except.ok d => d
  | Except.error _ => []

/-- C6 witness: in the concrete one-record page dictionary, both the slot-2
image token and a slot-2 field token map to the empty string. -/
theorem page_replacements_blanks_witness :
    dictGet c6dict (fTok "画像" 2) = Option.some [] ∧
    dictGet c6dict (fTok "商品名" 2) = Option.some [] := by
  have h : page_replacements "S".toList [({} : Product)] = Except.ok c6dict := by decide
  exact ⟨(page_replacements_blanks _ _ _ h).2,
    (page_replacements_blanks _ _ _ h).1 "商品名" (by decide)⟩

/-- C6 counterexample: on a one-record page with no image file anywhere, the
claim says the unfilled slot's image token resolves via the literal
`no image` fallback. It does not: the page dictionary itself maps
`{{画像_2}}` to the empty string (first conjunct), so after the full page
processing — text pass, then the image pass, which visits only the one
actually-present record — the shape holding `{{画像_2}}` carries the empty
text, not `no image` (second and third conjuncts). -/
theorem unfilled_slot_image_blank_cex :
    (page_replacements "S".toList [({} : Product)]).map
        (fun d => dictGet d (fTok "画像" 2))
      = Except.ok (Option.some []) ∧
    (page_replacements "S".toList [({} : Product)]).map
        (fun d => pageImagePass (fun _ => false) (fun _ => (1, 1)) "images" [({} : Product)]
          (substSlide d [Shape.textFrame ⟨0, 0, 3, 3⟩ [[fTok "画像" 2]]]))
      = Except.ok [Shape.textFrame ⟨0, 0, 3, 3⟩ [[([] : Txt)]]] ∧
    ([] : Txt) ≠ "no image".toList := by
  refine ⟨by decide, by decide, by decide⟩

/-- There are `ceil(n / 2)` chunks of a list of length `n`. -/
theorem chunkPages_length {α : Type} (l : List α) :
    (chunkPages l).length = (l.length + 1) / 2 := by
  induction l using chunkPages.induct with
  | case1 => simp [chunkPages]
  | case2 a => simp [chunkPages]
  | case3 a b rest ih =>
    show (chunkPages rest).length + 1 = _
    rw [ih]
    simp only [List.length_cons]
    omega

/-- The chunks concatenate back to the original list (original order, no
record lost or duplicated). -/
theorem chunkPages_flatten {α : Type} (l : List α) : (chunkPages l).flatten = l := by
  induction l using chunkPages.induct with
  | case1 => rfl
  | case2 a => rfl
  | case3 a b rest ih =>
    show a :: b :: (chunkPages rest).flatten = a :: b :: rest
    rw [ih]

/-- Every chunk holds one or two records. -/
theorem chunkPages_sizes {α : Type} (l : List α) :
    ∀ c ∈ chunkPages l, 0 < c.length ∧ c.length ≤ 2 := by
  induction l using chunkPages.induct with
  | case1 => intro c hc; simp [chunkPages] at hc
  | case2 a =>
    intro c hc
    simp only [chunkPages, List.mem_singleton] at hc
    subst hc
    exact ⟨by simp, by simp⟩
  | case3 a b rest ih =>
    intro c hc
    rcases List.mem_cons.mp hc with hc | hc
    · subst hc
      exact ⟨by simp, by simp⟩
    · exact ih c hc

/-- Every chunk except possibly the last holds exactly two records. -/
theorem chunkPages_full {α : Type} (l : List α) :
    ∀ i, i + 1 < (chunkPages l).length → ((chunkPages l).getD i []).length = 2 := by
  induction l using chunkPages.induct with
  | case1 => intro i hi; simp [chunkPages] at hi
  | case2 a => intro i hi; simp [chunkPages] at hi
  | case3 a b rest ih =>
    intro i hi
    cases i with
    | zero => rfl
    | succ j =>
      show ((chunkPages rest).getD j []).length = 2
      refine ih j ?_
      simp only [chunkPages, List.length_cons] at hi
      omega

/-- After the first page, each successful loop iteration appends exactly one
slide: the final slide count is the incoming count plus the page count. -/
theorem pageLoop_length (supplier : Txt) (fE : String → Bool) (iS : String → Nat × Nat)
    (dir : String) :
    ∀ (pages : List (List Product)) (slides out : List (List Shape)),
      pageLoop supplier fE iS dir false slides pages = Except.ok out →
      out.length = slides.length + pages.length := by
  intro pages
  induction pages with
  | nil =>
    intro slides out h
    rw [show slides = out from Except.ok.inj h]
    simp
  | cons page rest ih =>
    intro slides out h
    cases hd : page_replacements supplier page with
    | error e =>
      have hfail : pageLoop supplier fE iS dir false slides (page :: rest) = Except.error e := by
        show (page_replacements supplier page >>= fun d =>
          pageLoop supplier fE iS dir false
            (slides ++ [pageImagePass fE iS dir page (substSlide d (slides.headD []))]) rest)
          = Except.error e
        rw [hd]
        rfl
      rw [hfail] at h
      exact Except.noConfusion h
    | ok d =>
      have hstep : pageLoop supplier fE iS dir false slides (page :: rest)
          = pageLoop supplier fE iS dir false
              (slides ++ [pageImagePass fE iS dir page (substSlide d (slides.headD []))]) rest := by
        show (page_replacements supplier page >>= fun d =>
          pageLoop supplier fE iS dir false
            (slides ++ [pageImagePass fE iS dir page (substSlide d (slides.headD []))]) rest)
          = _
        rw [hd]
        rfl
      rw [hstep] at h
      have := ih _ _ h
      simp only [List.length_append, List.length_cons, List.length_nil] at this ⊢
      omega

/-- C7: for a non-empty record sequence and a template presentation holding
exactly one slide, a successful run generates exactly `ceil(n / 2)` slides;
the pages are the chunks of the records in original order (they concatenate
back to the record list), each page holds one or two records, and every page
except possibly the last holds exactly two. Each loop iteration builds one
replacement dictionary and applies it to exactly one slide (the structure of
`pageLoop`), so each generated slide receives exactly one replacement map. -/
theorem generate_page_count (supplier : Txt) (products : List Product)
    (template : List Shape) (fE : String → Bool) (iS : String → Nat × Nat) (dir : String)
    (slides : List (List Shape)) (hne : products ≠ [])
    (h : generate_catalog supplier products template fE iS dir
      = Except.ok (Option.some slides)) :
    slides.length = (products.length + 1) / 2 ∧
    (chunkPages products).flatten = products ∧
    (∀ c ∈ chunkPages products, 0 < c.length ∧ c.length ≤ 2) ∧
    (∀ i, i + 1 < (chunkPages products).length →
      ((chunkPages products).getD i []).length = 2) := by
  refine ⟨?_, chunkPages_flatten products, chunkPages_sizes products, chunkPages_full products⟩
  have hlen : ¬ products.length = 0 := by
    intro hc
    exact hne (List.eq_nil_of_length_eq_zero hc)
  rw [generate_catalog, if_neg hlen] at h
  cases hp : pageLoop supplier fE iS dir true [template] (chunkPages products) with
  | error e =>
    rw [hp] at h
    exact Except.noConfusion h
  | ok out =>
    rw [hp] at h
    have hout : out = slides := by
      have : Option.some out = Option.some slides := Except.ok.inj h
      exact Option.some.inj this
    subst hout
    cases hpg : chunkPages products with
    | nil =>
      exact absurd (by rw [← chunkPages_flatten products, hpg]; rfl) hne
    | cons c rest =>
      rw [hpg] at hp
      cases hd : page_replacements supplier c with
      | error e =>
        have hfail : pageLoop supplier fE iS dir true [template] (c :: rest)
            = Except.error e := by
          show (page_replacements supplier c >>= fun d =>
            pageLoop supplier fE iS dir false
              ([template].set 0 (pageImagePass fE iS dir c (substSlide d ([template].headD []))))
              rest) = Except.error e
          rw [hd]
          rfl
        rw [hfail] at hp
        exact Except.noConfusion hp
      | ok d =>
        have hstep : pageLoop supplier fE iS dir true [template] (c :: rest)
            = pageLoop supplier fE iS dir false
                [pageImagePass fE iS dir c (substSlide d ([template].headD []))] rest := by
          show (page_replacements supplier c >>= fun d =>
            pageLoop supplier fE iS dir false
              ([template].set 0 (pageImagePass fE iS dir c (substSlide d ([template].headD []))))
              rest) = _
          rw [hd]
          rfl
        rw [hstep] at hp
        have hl := pageLoop_length supplier fE iS dir rest _ _ hp
        have hcl := chunkPages_length products
        rw [hpg] at hcl
        simp only [List.length_cons, List.length_nil] at hl hcl
        omega

/-- C7 witness: five all-NaN records with an empty template slide generate
exactly three slides. -/
theorem generate_page_count_witness :
    ([([] : List Shape), [], []]).length
      = (([({} : Product), {}, {}, {}, {}] : List Product).length + 1) / 2 :=
  (generate_page_count "S".toList [({} : Product), {}, {}, {}, {}] []
    (fun _ => false) (fun _ => (1, 1)) "images" [[], [], []]
    (by decide) (by decide)).1
